import Mathlib

/-!
Shallow embedding of the key/value configuration editor of the terminal
analog clock repository (source file `src/config_edit.rs`), together with
proofs of the specified properties: persistence round-trip, load fallback,
typed setters, navigation, option cycling, autosave behaviour, the modal
text/integer editors, and the tail-anchored display slice.

Conventions of the embedding:
* Rust `String` is modelled by Lean `String` (or its list of characters);
  where the source measures a string with `len()` (UTF-8 bytes) the model
  uses `String.utf8ByteSize` / the sum of `Char.utf8Size`, never the
  character count.
* `usize` / `i64` are modelled by `Nat` / `Int`; JSON decoding checks the
  numeric ranges that `serde` enforces for those Rust types.
* Filesystem writes always succeed in the model: `save` is modelled as
  producing the serialized document, and the setters treat the write as
  `Ok`.
* The blocking `getch` loops are modelled as functions of the list of
  input key codes (the script); an exhausted script leaves a modal editor
  without committing, so the edited field keeps its previous value.
-/

namespace ConfigEdit

/-- JSON documents at the level of `serde_json::Value` (numbers restricted
to integers, the only numbers this schema uses; objects are ordered field
lists looked up by first match). -/
inductive Json where
  | null
  | bool (b : Bool)
  | num (n : Int)
  | str (s : String)
  | arr (elems : List Json)
  | obj (fields : List (String × Json))

/-- The closed sum of typed field variants, `enum Value` in the source
(serde representation: internally tagged with `kind`, lowercase names). -/
inductive Value where
  | Text (value : String) (maximum_size : Option Nat)
  | Choice (options : List String) (selected : Nat)
  | Category
  | Color (options : List String) (selected : Nat)
  | Integer (value : Int)
  | Boolean (value : Bool)
deriving DecidableEq

/-- `struct Entry { key, value }` from the source. -/
structure Entry where
  key : String
  value : Value
deriving DecidableEq

/-- `struct Config { filename, entries }` from the source. -/
structure Config where
  filename : String
  entries : List Entry
deriving DecidableEq

/-- `matches!(v, Value::Category)` as a Boolean test. -/
def Value.isCategory : Value → Bool
  | .Category => true
  | _ => false

/-- Options and selected index of a choice/color value, `none` for every
other kind (used to state the kind checks of `set_option`). -/
def Value.optionsSel : Value → Option (List String × Nat)
  | .Choice opts sel => some (opts, sel)
  | .Color opts sel => some (opts, sel)
  | _ => none

/-- The built-in default schema, `Config::default` in the source. -/
def Config.mkDefault (filename_str : String) : Config where
  filename := filename_str
  entries :=
    [ ⟨"Colors", .Category⟩,
      ⟨"background color",
        .Color ["BLACK", "RED", "GREEN", "YELLOW", "BLUE", "MAGENTA", "CYAN", "WHITE"] 0⟩,
      ⟨"circle color",
        .Color ["BLACK", "RED", "GREEN", "YELLOW", "BLUE", "MAGENTA", "CYAN", "WHITE"] 2⟩,
      ⟨"seconds color",
        .Color ["BLACK", "RED", "GREEN", "YELLOW", "BLUE", "MAGENTA", "CYAN", "WHITE"] 6⟩,
      ⟨"digits color",
        .Color ["BLACK", "RED", "GREEN", "YELLOW", "BLUE", "MAGENTA", "CYAN", "WHITE"] 7⟩,
      ⟨"minutes color",
        .Color ["BLACK", "RED", "GREEN", "YELLOW", "BLUE", "MAGENTA", "CYAN", "WHITE"] 3⟩,
      ⟨"hours color",
        .Color ["BLACK", "RED", "GREEN", "YELLOW", "BLUE", "MAGENTA", "CYAN", "WHITE"] 1⟩,
      ⟨"Hand labels", .Category⟩,
      ⟨"hour hand label", .Text "HOURS" (some 32)⟩,
      ⟨"minute hand label", .Text "minutes" (some 32)⟩,
      ⟨"second hand label", .Text "." (some 32)⟩,
      ⟨"Display modes", .Category⟩,
      ⟨"clock border", .Choice ["full", "dot and hours", "hours", "no border"] 1⟩,
      ⟨"display seconds",
        .Choice ["no display", "full each second", "full continuous",
                 "end of hand each second", "end of hand full continuous"] 1⟩,
      ⟨"numbers", .Choice ["no numbers", "stars", "numbers"] 0⟩,
      ⟨"clock width", .Integer 5⟩,
      ⟨"local time offset", .Integer 0⟩,
      ⟨"continuous minutes", .Boolean true⟩,
      ⟨"Keyboard shortcuts", .Category⟩,
      ⟨"change clock border", .Text "c" (some 1)⟩,
      ⟨"change number display", .Text "n" (some 1)⟩,
      ⟨"change seconds display", .Text "s" (some 1)⟩,
      ⟨"quit", .Text "q" (some 1)⟩ ]

/-! ### JSON encoding and decoding (model of serde's derived code) -/

/-- First-match field lookup in a JSON object. -/
def getField (name : String) : List (String × Json) → Option Json
  | [] => none
  | (k, j) :: rest => if k = name then some j else getField name rest

/-- `usize` upper bound (exclusive). -/
def usizeBound : Nat := 18446744073709551616

/-- serde encoding of one `Value` (internally tagged, lowercase kinds;
`Option` serializes as `null` / the value). -/
def encValue : Value → Json
  | .Text v ms =>
      .obj [("kind", .str "text"), ("value", .str v),
            ("maximum_size", match ms with | none => .null | some m => .num m)]
  | .Choice opts sel =>
      .obj [("kind", .str "choice"), ("options", .arr (opts.map .str)),
            ("selected", .num sel)]
  | .Category => .obj [("kind", .str "category")]
  | .Color opts sel =>
      .obj [("kind", .str "color"), ("options", .arr (opts.map .str)),
            ("selected", .num sel)]
  | .Integer v => .obj [("kind", .str "integer"), ("value", .num v)]
  | .Boolean b => .obj [("kind", .str "boolean"), ("value", .bool b)]

/-- serde encoding of one `Entry`. -/
def encEntry (e : Entry) : Json :=
  .obj [("key", .str e.key), ("value", encValue e.value)]

/-- serde encoding of a whole `Config`; this is the document that
`Config::save` writes (`serde_json::to_string_pretty`). -/
def encConfig (c : Config) : Json :=
  .obj [("filename", .str c.filename), ("entries", .arr (c.entries.map encEntry))]

/-- Decoding of a `Vec<String>` from a JSON array of strings. -/
def decStrList : List Json → Option (List String)
  | [] => some []
  | .str s :: rest =>
      match decStrList rest with
      | some ss => some (s :: ss)
      | none => none
  | _ :: _ => none

/-- serde decoding of one `Value` from JSON: the `kind` tag selects the
variant, fields are looked up by name, numeric fields must fit the Rust
integer type (`usize` / `i64`), `maximum_size` may be missing
(`serde(default)`) or `null`. -/
def decValue (j : Json) : Option Value :=
  match j with
  | .obj fields =>
    match getField "kind" fields with
    | some (.str kind) =>
      if kind = "text" then
        match getField "value" fields with
        | some (.str v) =>
          match getField "maximum_size" fields with
          | none => some (.Text v none)
          | some .null => some (.Text v none)
          | some (.num (.ofNat n)) =>
              if n < usizeBound then some (.Text v (some n)) else none
          | some _ => none
        | _ => none
      else if kind = "choice" then
        match getField "options" fields, getField "selected" fields with
        | some (.arr xs), some (.num (.ofNat n)) =>
          match decStrList xs with
          | some opts => if n < usizeBound then some (.Choice opts n) else none
          | none => none
        | _, _ => none
      else if kind = "category" then some .Category
      else if kind = "color" then
        match getField "options" fields, getField "selected" fields with
        | some (.arr xs), some (.num (.ofNat n)) =>
          match decStrList xs with
          | some opts => if n < usizeBound then some (.Color opts n) else none
          | none => none
        | _, _ => none
      else if kind = "integer" then
        match getField "value" fields with
        | some (.num n) =>
            if -9223372036854775808 ≤ n ∧ n ≤ 9223372036854775807 then
              some (.Integer n)
            else none
        | _ => none
      else if kind = "boolean" then
        match getField "value" fields with
        | some (.bool b) => some (.Boolean b)
        | _ => none
      else none
    | _ => none
  | _ => none

/-- serde decoding of one `Entry`. -/
def decEntry (j : Json) : Option Entry :=
  match j with
  | .obj fields =>
    match getField "key" fields, getField "value" fields with
    | some (.str k), some vj =>
      match decValue vj with
      | some v => some ⟨k, v⟩
      | none => none
    | _, _ => none
  | _ => none

/-- serde decoding of a `Vec<Entry>`. -/
def decEntryList : List Json → Option (List Entry)
  | [] => some []
  | j :: rest =>
    match decEntry j, decEntryList rest with
    | some e, some es => some (e :: es)
    | _, _ => none

/-- serde decoding of a whole `Config`; this is the parse performed by
`serde_json::from_str` inside `Config::load`. -/
def decConfig (j : Json) : Option Config :=
  match j with
  | .obj fields =>
    match getField "filename" fields, getField "entries" fields with
    | some (.str f), some (.arr xs) =>
      match decEntryList xs with
      | some es => some ⟨f, es⟩
      | none => none
    | _, _ => none
  | _ => none

/-- Range conditions a decoded `Value` satisfies (numeric fields fit the
Rust integer types). -/
def Value.wf : Value → Prop
  | .Text _ ms => match ms with | some m => m < usizeBound | none => True
  | .Choice _ sel => sel < usizeBound
  | .Color _ sel => sel < usizeBound
  | .Integer v => -9223372036854775808 ≤ v ∧ v ≤ 9223372036854775807
  | _ => True

/-- Range conditions for every entry of a config. -/
def Config.wf (c : Config) : Prop := ∀ e ∈ c.entries, e.value.wf

/-! ### Load (model of `Config::load`)

File system access is abstracted to the three outcomes the source
distinguishes: the file is missing, reading it fails, or reading yields a
text whose JSON parse is modelled as `Option Json` (`none` for malformed
text).  The second component of the result records whether a diagnostic
was printed (`eprintln!` in the source). -/

/-- Outcome of looking for and reading the file at `load`'s path. -/
inductive FileView where
  | missing
  | unreadable
  | readable (parsed : Option Json)

/-- `Config::load`, with the diagnostic flag as second component. -/
def Config.load (fv : FileView) (filename : String) : Config × Bool :=
  match fv with
  | .missing => (Config.mkDefault filename, false)
  | .unreadable => (Config.mkDefault filename, true)
  | .readable none => (Config.mkDefault filename, true)
  | .readable (some j) =>
    match decConfig j with
    | some cfg => (cfg, false)
    | none => (Config.mkDefault filename, true)

/-- `Config::save` serializes the full entry list; in the model the write
always succeeds and the produced document is returned. -/
def Config.save (c : Config) : Json := encConfig c

/-! ### Read accessor used by the claims -/

/-- `Config::get_option`: selected index of a choice/color, `0` for any
other kind or a missing key (first key match wins). -/
def Config.get_option (c : Config) (key : String) : Nat :=
  match c.entries.find? (fun e => e.key == key) with
  | some e =>
    match e.value with
    | .Choice _ sel => sel
    | .Color _ sel => sel
    | _ => 0
  | none => 0

/-- Value stored under the first entry whose key matches, if any
(used only to state theorems). -/
def Config.lookupValue (c : Config) (key : String) : Option Value :=
  (c.entries.find? (fun e => e.key == key)).map Entry.value

/-! ### Typed setters (models of `set_option` / `set_int` / `set_bool` /
`set_string`)

Each Rust setter finds the first entry with the given key, checks the
kind (and range/length), mutates in place and calls `self.save()`.  The
models mutate the entry list through a helper returning `none` exactly
when the Rust code returns early without mutating; the filesystem write
is assumed to succeed. -/

/-- Entry-list part of `Config::set_option` (negative indices are
rejected before this helper is reached). -/
def setOptionEntries (key : String) (idx : Nat) : List Entry → Option (List Entry)
  | [] => none
  | e :: rest =>
    if e.key = key then
      match e.value with
      | .Choice opts _ =>
          if opts.length ≤ idx then none else some (⟨e.key, .Choice opts idx⟩ :: rest)
      | .Color opts _ =>
          if opts.length ≤ idx then none else some (⟨e.key, .Color opts idx⟩ :: rest)
      | _ => none
    else
      match setOptionEntries key idx rest with
      | some rest2 => some (e :: rest2)
      | none => none

/-- `Config::set_option`: rejects `value < 0`, then key lookup, kind and
range check; on success mutates, persists and returns `Some(value)`. -/
def Config.setOption (c : Config) (key : String) (value : Int) : Config × Option Int :=
  if value < 0 then (c, none)
  else
    match setOptionEntries key value.toNat c.entries with
    | some es => ({ c with entries := es }, some value)
    | none => (c, none)

/-- Entry-list part of `Config::set_int`. -/
def setIntEntries (key : String) (v : Int) : List Entry → Option (List Entry)
  | [] => none
  | e :: rest =>
    if e.key = key then
      match e.value with
      | .Integer _ => some (⟨e.key, .Integer v⟩ :: rest)
      | _ => none
    else
      match setIntEntries key v rest with
      | some rest2 => some (e :: rest2)
      | none => none

/-- `Config::set_int`.  The Rust function's return type is `()`: the
`Some/None` it computes internally is discarded, so the model returns
only the new state. -/
def Config.set_int (c : Config) (key : String) (v : Int) : Config :=
  match setIntEntries key v c.entries with
  | some es => { c with entries := es }
  | none => c

/-- Entry-list part of `Config::set_bool`. -/
def setBoolEntries (key : String) (v : Bool) : List Entry → Option (List Entry)
  | [] => none
  | e :: rest =>
    if e.key = key then
      match e.value with
      | .Boolean _ => some (⟨e.key, .Boolean v⟩ :: rest)
      | _ => none
    else
      match setBoolEntries key v rest with
      | some rest2 => some (e :: rest2)
      | none => none

/-- `Config::set_bool`: kind-checked mutation + persist, `Some(value)` on
success, `None` on key-not-found or kind mismatch. -/
def Config.set_bool (c : Config) (key : String) (v : Bool) : Config × Option Bool :=
  match setBoolEntries key v c.entries with
  | some es => ({ c with entries := es }, some v)
  | none => (c, none)

/-- Entry-list part of `Config::set_string`.  The length test of the
source is `value.len() > *max`, i.e. a comparison of the UTF-8 byte
length, not of the character count. -/
def setStringEntries (key v : String) : List Entry → Option (List Entry)
  | [] => none
  | e :: rest =>
    if e.key = key then
      match e.value with
      | .Text _ ms =>
        match ms with
        | some max => if max < v.utf8ByteSize then none
                      else some (⟨e.key, .Text v (some max)⟩ :: rest)
        | none => some (⟨e.key, .Text v none⟩ :: rest)
      | _ => none
    else
      match setStringEntries key v rest with
      | some rest2 => some (e :: rest2)
      | none => none

/-- `Config::set_string`: kind-checked, respects `maximum_size`, returns
`Some(true)` on success and `None` otherwise. -/
def Config.set_string (c : Config) (key v : String) : Config × Option Bool :=
  match setStringEntries key v c.entries with
  | some es => ({ c with entries := es }, some true)
  | none => (c, none)

/-! ### Navigation (models of the selection logic in
`Config::terminal_edit_json`) -/

/-- Placeholder entry for out-of-range `List.getD` reads (never reached
under the bounds hypotheses of the theorems). -/
def dummyEntry : Entry := ⟨"", .Category⟩

/-- `iter().position(|e| !matches!(e.value, Value::Category))`. -/
def firstNonCat : List Entry → Option Nat
  | [] => none
  | e :: rest =>
    if e.value.isCategory then
      match firstNonCat rest with
      | some i => some (i + 1)
      | none => none
    else some 0

/-- Initial selection: first non-category entry if any, else 0. -/
def initialSel (entries : List Entry) : Nat := (firstNonCat entries).getD 0

/-- The KEY_UP scan: starting from `new = n`, repeatedly decrement and
stop at the first non-category entry; `none` when the scan exhausts
without finding one. -/
def scanUp (entries : List Entry) : Nat → Option Nat
  | 0 => none
  | k + 1 =>
    if (entries.getD k dummyEntry).value.isCategory then scanUp entries k
    else some k

/-- Selection after KEY_UP (selection unchanged when no non-category
entry precedes it; the source also skips the scan for an empty list). -/
def moveUp (entries : List Entry) (sel : Nat) : Nat :=
  if entries.isEmpty then sel
  else (scanUp entries sel).getD sel

/-- The KEY_DOWN scan: starting from `new = k`, repeatedly increment
while `new + 1 < len` and stop at the first non-category entry. -/
def scanDown (entries : List Entry) (k : Nat) : Option Nat :=
  if _h : k + 1 < entries.length then
    if (entries.getD (k + 1) dummyEntry).value.isCategory then scanDown entries (k + 1)
    else some (k + 1)
  else none
termination_by entries.length - k

/-- Selection after KEY_DOWN. -/
def moveDown (entries : List Entry) (sel : Nat) : Nat :=
  if entries.isEmpty then sel
  else (scanDown entries sel).getD sel

/-! ### Option cycling (the Enter/Space/Right and Left match arms for
`Choice` / `Color` values) -/

/-- Forward cycle (Enter, Space or KEY_RIGHT): empty option lists are a
no-op, otherwise `selected = (selected + 1) % len`. -/
def Value.cycleFwd : Value → Value
  | .Choice opts sel =>
      if opts.isEmpty then .Choice opts sel
      else .Choice opts ((sel + 1) % opts.length)
  | .Color opts sel =>
      if opts.isEmpty then .Color opts sel
      else .Color opts ((sel + 1) % opts.length)
  | v => v

/-- Backward cycle (KEY_LEFT): empty option lists are a no-op, selection
0 wraps to `len - 1`, otherwise decrement. -/
def Value.cycleBack : Value → Value
  | .Choice opts sel =>
      if opts.isEmpty then .Choice opts sel
      else .Choice opts (if sel = 0 then opts.length - 1 else sel - 1)
  | .Color opts sel =>
      if opts.isEmpty then .Color opts sel
      else .Color opts (if sel = 0 then opts.length - 1 else sel - 1)
  | v => v

/-! ### Modal editors (`edit_text_value` / `edit_integer_value`)

Both are loops over `getch`; the models consume a list of key codes.
Backspace codes are KEY_BACKSPACE (263), 127 and 8, confirm is 10 or 13,
cancel is 27. -/

/-- UTF-8 byte length of a character buffer (Rust `String::len`). -/
def utf8LenL (cs : List Char) : Nat := (cs.map Char.utf8Size).sum

/-- `std::char::from_u32(ch as u32)` for the `i32` returned by `getch`:
the cast wraps modulo `2^32` and surrogates / out-of-range code points
give `None`. -/
def charFromU32 (n : Int) : Option Char :=
  let u := (n % 4294967296).toNat
  if u < 55296 ∨ (57344 ≤ u ∧ u < 1114112) then some (Char.ofNat u) else none

/-- The text-editor loop body of `edit_text_value`: `input` is the edit
buffer, `orig` the field's previous value (committed keys overwrite it,
cancel and an exhausted script keep it), `limit` the effective cap
(`maximum_size` or 4096).  Only printable ASCII (32..=126) is inserted,
and only while the buffer's byte length is below the cap. -/
def editTextRun : List Int → List Char → List Char → Nat → List Char
  | [], _, orig, _ => orig
  | ch :: rest, input, orig, limit =>
    if ch = 10 ∨ ch = 13 then input
    else if ch = 27 then orig
    else if ch = 263 ∨ ch = 127 ∨ ch = 8 then
      editTextRun rest input.dropLast orig limit
    else if 32 ≤ ch ∧ ch ≤ 126 then
      if utf8LenL input < limit then
        editTextRun rest (input ++ [Char.ofNat ch.toNat]) orig limit
      else editTextRun rest input orig limit
    else editTextRun rest input orig limit

/-- One non-terminal keystroke of `edit_integer_value`: backspace pops,
otherwise a decoded character is appended when the buffer is below the
32-byte cap and the character is an ASCII digit or a minus sign on an
empty buffer. -/
def intEditStep (input : List Char) (ch : Int) : List Char :=
  if ch = 263 ∨ ch = 127 ∨ ch = 8 then input.dropLast
  else
    match charFromU32 ch with
    | some c =>
      if 32 ≤ utf8LenL input then input
      else if c.isDigit ∨ (c = '-' ∧ input.isEmpty) then input ++ [c]
      else input
    | none => input

/-- Well-formedness of the integer-editor buffer: an optional leading
minus sign followed by ASCII digits only (used to state C9). -/
def intBufShape : List Char → Bool
  | [] => true
  | c :: rest => (c == '-' || c.isDigit) && rest.all (fun x => x.isDigit)

/-- Value of exactly one decimal digit character. -/
def digitVal (c : Char) : Nat := c.toNat - 48

/-- Accumulating decimal evaluation; fails at the first non-digit. -/
def digitsValAux : List Char → Nat → Option Nat
  | [], acc => some acc
  | c :: rest, acc =>
    if c.isDigit then digitsValAux rest (10 * acc + digitVal c) else none

/-- `str::parse::<i64>`: optional sign, at least one digit, value within
the `i64` range. -/
def parseI64 (cs : List Char) : Option Int :=
  match cs with
  | [] => none
  | '-' :: rest =>
    match rest with
    | [] => none
    | _ :: _ =>
      match digitsValAux rest 0 with
      | some n => if n ≤ 9223372036854775808 then some (-(n : Int)) else none
      | none => none
  | '+' :: rest =>
    match rest with
    | [] => none
    | _ :: _ =>
      match digitsValAux rest 0 with
      | some n => if n ≤ 9223372036854775807 then some ((n : Int)) else none
      | none => none
  | _ :: _ =>
    match digitsValAux cs 0 with
    | some n => if n ≤ 9223372036854775807 then some ((n : Int)) else none
    | none => none

/-- Commit step of `edit_integer_value` (the Enter arm): empty buffer or
lone minus commit 0, a successful parse commits its value, a failed
parse keeps the previous value. -/
def intCommitVal (input : List Char) (value : Int) : Int :=
  if input.isEmpty ∨ input = ['-'] then 0
  else
    match parseI64 input with
    | some v => v
    | none => value

/-- The integer-editor loop of `edit_integer_value` over a key script;
the initial buffer is `value.to_string()`. -/
def editIntRun : List Int → List Char → Int → Int
  | [], _, value => value
  | ch :: rest, input, value =>
    if ch = 10 ∨ ch = 13 then intCommitVal input value
    else if ch = 27 then value
    else editIntRun rest (intEditStep input ch) value

/-- `edit_entry`: text and integer values open their modal editor, all
other kinds only show a status hint and leave the entry unchanged. -/
def edit_entry (script : List Int) (e : Entry) : Entry :=
  match e.value with
  | .Text v ms =>
      { e with value := .Text (String.mk (editTextRun script v.data v.data (ms.getD 4096))) ms }
  | .Integer v =>
      { e with value := .Integer (editIntRun script (toString v).data v) }
  | _ => e

/-! ### The browsing state machine (one iteration of the
`terminal_edit_json` loop) -/

/-- Browsing state: the configuration and the selection cursor. -/
structure SessionState where
  cfg : Config
  selected : Nat
deriving DecidableEq

/-- Replace the entry at the current selection. -/
def SessionState.withEntry (st : SessionState) (e : Entry) : SessionState :=
  { st with cfg := { st.cfg with entries := st.cfg.entries.set st.selected e } }

/-- One iteration of the browsing loop of `terminal_edit_json` for input
code `ch`: the new state, whether `self.save()` ran, and whether the
loop ends.  `autosave` is the `SAVE_WHEN_CHANGE` flag and `script` feeds
any modal editor opened by this key.  Key codes follow ncurses:
KEY_DOWN 258, KEY_UP 259, KEY_LEFT 260, KEY_RIGHT 261; 32/10/13 are
Space/Enter, 101 is `e`, 115 is `s`, 27 ends the session. -/
def browseStep (autosave : Bool) (ch : Int) (script : List Int) (st : SessionState) :
    SessionState × Bool × Bool :=
  if ch = 259 then
    if st.cfg.entries.isEmpty then (st, false, false)
    else ({ st with selected := moveUp st.cfg.entries st.selected }, false, false)
  else if ch = 258 then
    if st.cfg.entries.isEmpty then (st, false, false)
    else ({ st with selected := moveDown st.cfg.entries st.selected }, false, false)
  else if ch = 32 ∨ ch = 10 ∨ ch = 13 then
    match st.cfg.entries[st.selected]? with
    | some e =>
      match e.value with
      | .Choice opts sel =>
        if opts.isEmpty then (st, false, false)
        else (st.withEntry { e with value := .Choice opts ((sel + 1) % opts.length) },
              autosave, false)
      | .Color opts sel =>
        if opts.isEmpty then (st, false, false)
        else (st.withEntry { e with value := .Color opts ((sel + 1) % opts.length) },
              autosave, false)
      | .Boolean b => (st.withEntry { e with value := .Boolean (!b) }, autosave, false)
      | _ => (st.withEntry (edit_entry script e), autosave, false)
    | none => (st, autosave, false)
  else if ch = 101 then
    match st.cfg.entries[st.selected]? with
    | some e => (st.withEntry (edit_entry script e), false, false)
    | none => (st, false, false)
  else if ch = 260 ∨ ch = 261 then
    match st.cfg.entries[st.selected]? with
    | some e =>
      match e.value with
      | .Choice opts sel =>
        if opts.isEmpty then (st, false, false)
        else if ch = 260 then
          (st.withEntry { e with value := .Choice opts (if sel = 0 then opts.length - 1 else sel - 1) },
           false, false)
        else
          (st.withEntry { e with value := .Choice opts ((sel + 1) % opts.length) },
           false, false)
      | .Color opts sel =>
        if opts.isEmpty then (st, false, false)
        else if ch = 260 then
          (st.withEntry { e with value := .Color opts (if sel = 0 then opts.length - 1 else sel - 1) },
           false, false)
        else
          (st.withEntry { e with value := .Color opts ((sel + 1) % opts.length) },
           false, false)
      | .Boolean b => (st.withEntry { e with value := .Boolean (!b) }, false, false)
      | _ => (st, false, false)
    | none => (st, false, false)
  else if ch = 115 then (st, true, false)
  else if ch = 27 then (st, false, true)
  else (st, false, false)

/-- Whether the Enter/Space branch takes the `continue` that skips the
autosave line (selected entry is a choice/color with no options). -/
def enterSkipsSave (st : SessionState) : Bool :=
  match st.cfg.entries[st.selected]? with
  | some ⟨_, .Choice [] _⟩ => true
  | some ⟨_, .Color [] _⟩ => true
  | _ => false

/-! ### Tail-anchored display slice of the modal text editor

`edit_text_value` shows `&input[start..]` with
`start = input.len().saturating_sub(max_len)` when the buffer is wider
than the terminal.  Rust string slicing is by byte index and fails
(panics) when the index is not a character boundary; `sliceFromByte`
models it, `none` being the fatal path. -/

/-- Rust `&s[start..]`: drop `start` bytes, `none` when `start` is not a
character boundary (or past the end). -/
def sliceFromByte : List Char → Nat → Option (List Char)
  | cs, 0 => some cs
  | [], _ + 1 => none
  | c :: rest, n + 1 =>
    if c.utf8Size ≤ n + 1 then sliceFromByte rest (n + 1 - c.utf8Size) else none

/-- The displayed slice of the edit buffer: tail-anchored when the byte
length exceeds the visible width. -/
def tailVisible (cs : List Char) (maxLen : Nat) : Option (List Char) :=
  if maxLen < utf8LenL cs then sliceFromByte cs (utf8LenL cs - maxLen) else some cs

/-! ## Theorems -/

/-! ### Round-trip of the persisted document (C1) -/

theorem decStrList_map_str (l : List String) : decStrList (l.map .str) = some l := by
  induction l with
  | nil => rfl
  | cons s rest ih => simp [decStrList, ih]

theorem dec_value_wf {j : Json} {v : Value} (h : decValue j = some v) : v.wf := by
  unfold decValue at h
  repeat' split at h
  all_goals try (exfalso; exact Option.noConfusion h)
  all_goals rw [Option.some_inj] at h
  all_goals subst h
  all_goals first | trivial | omega

theorem enc_dec_value {v : Value} (hwf : v.wf) : decValue (encValue v) = some v := by
  cases v with
  | Text s ms =>
    cases ms with
    | none => rfl
    | some m =>
      have hm : m < usizeBound := hwf
      simp [encValue, decValue, getField, hm]
  | Choice opts sel =>
    have hs : sel < usizeBound := hwf
    simp [encValue, decValue, getField, decStrList_map_str, hs]
  | Category => rfl
  | Color opts sel =>
    have hs : sel < usizeBound := hwf
    simp [encValue, decValue, getField, decStrList_map_str, hs]
  | Integer n =>
    have hn := hwf
    simp only [Value.wf] at hn
    simp [encValue, decValue, getField, hn]
  | Boolean b => rfl

theorem dec_entry_wf {j : Json} {e : Entry} (h : decEntry j = some e) : e.value.wf := by
  unfold decEntry at h
  repeat' split at h
  all_goals try (exfalso; exact Option.noConfusion h)
  all_goals rw [Option.some_inj] at h
  all_goals subst h
  exact dec_value_wf (by assumption)

theorem enc_dec_entry {e : Entry} (hwf : e.value.wf) : decEntry (encEntry e) = some e := by
  obtain ⟨k, v⟩ := e
  simp [encEntry, decEntry, getField, enc_dec_value hwf]

theorem dec_entryList_wf {xs : List Json} {es : List Entry}
    (h : decEntryList xs = some es) : ∀ e ∈ es, e.value.wf := by
  induction xs generalizing es with
  | nil => cases h; simp
  | cons j rest ih =>
    unfold decEntryList at h
    split at h
    · cases h
      intro e he
      rcases List.mem_cons.mp he with rfl | hmem
      · exact dec_entry_wf (by assumption)
      · exact ih (by assumption) e hmem
    · cases h

theorem enc_dec_entryList {es : List Entry} (hwf : ∀ e ∈ es, e.value.wf) :
    decEntryList (es.map encEntry) = some es := by
  induction es with
  | nil => rfl
  | cons e rest ih =>
    have h1 : e.value.wf := hwf e (by simp)
    have h2 : ∀ x ∈ rest, x.value.wf := fun x hx => hwf x (by simp [hx])
    simp [decEntryList, enc_dec_entry h1, ih h2]

theorem dec_config_wf {j : Json} {c : Config} (h : decConfig j = some c) : c.wf := by
  unfold decConfig at h
  repeat' split at h
  all_goals try (exfalso; exact Option.noConfusion h)
  all_goals rw [Option.some_inj] at h
  all_goals subst h
  exact dec_entryList_wf (by assumption)

theorem enc_dec_config {c : Config} (hwf : c.wf) : decConfig (encConfig c) = some c := by
  obtain ⟨f, es⟩ := c
  simp [encConfig, decConfig, getField, enc_dec_entryList hwf]

/-- C1: for every valid persisted document `j` (one that `load` parses to
a configuration `c`), saving the loaded configuration produces a document
with exactly the same semantic content: it decodes back to `c` itself, so
the ordered entry sequence with its keys, value kinds, values, option
lists and selected indices is reproduced. -/
theorem c1_save_load_round_trip (j : Json) (c : Config) (fname : String)
    (h : decConfig j = some c) :
    decConfig (Config.save (Config.load (.readable (some j)) fname).1) = some c := by
  have hload : (Config.load (.readable (some j)) fname).1 = c := by
    simp [Config.load, h]
  rw [hload]
  exact enc_dec_config (dec_config_wf h)

/-- Witness for C1 at a concrete two-entry document. -/
theorem c1_save_load_round_trip_witness :
    decConfig (Config.save (Config.load
        (.readable (some (encConfig ⟨"clock.json",
          [⟨"Colors", .Category⟩, ⟨"numbers", .Choice ["no numbers", "stars"] 1⟩]⟩)))
        "clock.json").1) =
      some ⟨"clock.json",
        [⟨"Colors", .Category⟩, ⟨"numbers", .Choice ["no numbers", "stars"] 1⟩]⟩ :=
  c1_save_load_round_trip _ _ "clock.json" rfl

/-! ### Load fallback (C2) -/

/-- C2: `load` is total on every file-system outcome, and each outcome is
pinned down: a document that parses to a configuration `c` loads exactly
`(c, no diagnostic)`; a malformed document, an unreadable file, or
well-formed JSON of the wrong shape loads the built-in default schema
with a diagnostic; a missing file loads the default schema silently.  The
diagnostic is emitted iff a read or parse failure occurred. -/
theorem c2_load_never_fails (fv : FileView) (fname : String) :
    ((Config.load fv fname).1 = Config.mkDefault fname ∨
      ∃ j c, fv = .readable (some j) ∧ decConfig j = some c ∧
        Config.load fv fname = (c, false))
    ∧ (∀ j c, fv = .readable (some j) → decConfig j = some c →
        Config.load fv fname = (c, false))
    ∧ (∀ j, fv = .readable (some j) → decConfig j = none →
        Config.load fv fname = (Config.mkDefault fname, true))
    ∧ (fv = .unreadable → Config.load fv fname = (Config.mkDefault fname, true))
    ∧ (fv = .readable none → Config.load fv fname = (Config.mkDefault fname, true))
    ∧ ((Config.load fv fname).2 = true ↔
        (fv = .unreadable ∨ fv = .readable none ∨
          ∃ j, fv = .readable (some j) ∧ decConfig j = none))
    ∧ (fv = .missing → Config.load fv fname = (Config.mkDefault fname, false)) := by
  cases fv with
  | missing =>
    refine ⟨Or.inl (by simp [Config.load]), ?_, ?_, ?_, ?_, ?_, ?_⟩ <;>
      simp [Config.load]
  | unreadable =>
    refine ⟨Or.inl (by simp [Config.load]), ?_, ?_, ?_, ?_, ?_, ?_⟩ <;>
      simp [Config.load]
  | readable p =>
    cases p with
    | none =>
      refine ⟨Or.inl (by simp [Config.load]), ?_, ?_, ?_, ?_, ?_, ?_⟩ <;>
        simp [Config.load]
    | some j =>
      cases hd : decConfig j with
      | none =>
        refine ⟨Or.inl (by simp [Config.load, hd]), ?_, ?_, ?_, ?_, ?_, ?_⟩
        · intro j' c' hj hdec
          simp only [FileView.readable.injEq, Option.some.injEq] at hj
          subst hj
          rw [hd] at hdec
          exact absurd hdec (by simp)
        · intro j' hj _
          simp only [FileView.readable.injEq, Option.some.injEq] at hj
          subst hj
          simp [Config.load, hd]
        · intro h; exact absurd h (by simp)
        · intro h; exact absurd h (by simp)
        · simp [Config.load, hd]
        · intro h; exact absurd h (by simp)
      | some c =>
        refine ⟨Or.inr ⟨j, c, rfl, hd, by simp [Config.load, hd]⟩, ?_, ?_, ?_, ?_, ?_, ?_⟩
        · intro j' c' hj hdec
          simp only [FileView.readable.injEq, Option.some.injEq] at hj
          subst hj
          rw [hd] at hdec
          rw [Option.some_inj] at hdec
          subst hdec
          simp [Config.load, hd]
        · intro j' hj hdec
          simp only [FileView.readable.injEq, Option.some.injEq] at hj
          subst hj
          rw [hd] at hdec
          exact absurd hdec (by simp)
        · intro h; exact absurd h (by simp)
        · intro h; exact absurd h (by simp)
        · simp [Config.load, hd]
        · intro h; exact absurd h (by simp)

/-- Witness for C2: a concrete well-formed document loads to exactly its
parsed configuration with no diagnostic. -/
theorem c2_load_never_fails_witness :
    Config.load (.readable (some (encConfig ⟨"f", [⟨"k", .Boolean true⟩]⟩))) "f" =
      (⟨"f", [⟨"k", .Boolean true⟩]⟩, false) :=
  (c2_load_never_fails (.readable (some (encConfig ⟨"f", [⟨"k", .Boolean true⟩]⟩)))
      "f").2.1 (encConfig ⟨"f", [⟨"k", .Boolean true⟩]⟩) ⟨"f", [⟨"k", .Boolean true⟩]⟩
    rfl rfl

/-! ### `set_string` and its length cap (C3) -/

theorem setStringEntries_not_found (key v : String) (l : List Entry)
    (h : l.find? (fun e => e.key == key) = none) :
    setStringEntries key v l = none := by
  induction l with
  | nil => rfl
  | cons e rest ih =>
    by_cases hk : e.key = key
    · rw [List.find?_cons_of_pos _ (by simp [hk])] at h
      exact absurd h (by simp)
    · rw [List.find?_cons_of_neg _ (by simp [hk])] at h
      simp [setStringEntries, hk, ih h]

theorem setStringEntries_found_text (key v t : String) (mx : Nat) (l : List Entry)
    (k0 : String) (h : l.find? (fun e => e.key == key) = some ⟨k0, .Text t (some mx)⟩) :
    (mx < v.utf8ByteSize → setStringEntries key v l = none) ∧
    (v.utf8ByteSize ≤ mx → ∃ es, setStringEntries key v l = some es) := by
  induction l with
  | nil => simp [List.find?] at h
  | cons e rest ih =>
    by_cases hk : e.key = key
    · rw [List.find?_cons_of_pos _ (by simp [hk])] at h
      rw [Option.some_inj] at h
      subst h
      have hk2 : k0 = key := hk
      subst hk2
      constructor
      · intro hlen
        simp [setStringEntries, hlen]
      · intro hlen
        exact ⟨⟨k0, .Text v (some mx)⟩ :: rest,
          by simp [setStringEntries, Nat.not_lt.mpr hlen]⟩
    · rw [List.find?_cons_of_neg _ (by simp [hk])] at h
      obtain ⟨ih1, ih2⟩ := ih h
      constructor
      · intro hlen
        simp [setStringEntries, hk, ih1 hlen]
      · intro hlen
        obtain ⟨es, hes⟩ := ih2 hlen
        exact ⟨e :: es, by simp [setStringEntries, hk, hes]⟩

/-- C3 counterexample: the claim measures the cap in characters, but the
source compares `value.len()`, the UTF-8 byte length.  With cap 1 the
one-character string `"é"` (two bytes) is rejected and the stored value
left unchanged, although its character length is within the cap. -/
theorem c3_byte_length_cx :
    String.length "é" ≤ 1 ∧
    Config.set_string ⟨"f", [⟨"k", .Text "x" (some 1)⟩]⟩ "k" "é" =
      (⟨"f", [⟨"k", .Text "x" (some 1)⟩]⟩, none) :=
  ⟨by decide, rfl⟩

/-- C3 (amended): for every Text entry with a declared cap, `set_string`
succeeds iff the UTF-8 byte length of the new value is at most
`maximum_size` (equal to the character count for ASCII values, where the
cap / cap+1 boundary behaves as claimed), and any rejection leaves the
configuration — in particular the stored value — unchanged and returns
failure. -/
theorem c3_set_string_cap (c : Config) (key v t : String) (mx : Nat)
    (h : c.lookupValue key = some (.Text t (some mx))) :
    ((c.set_string key v).2 = some true ↔ v.utf8ByteSize ≤ mx) ∧
    (mx < v.utf8ByteSize → c.set_string key v = (c, none)) := by
  obtain ⟨e0, hfind, hval⟩ : ∃ e0, c.entries.find? (fun e => e.key == key) = some e0 ∧
      e0.value = .Text t (some mx) := by
    unfold Config.lookupValue at h
    cases hf : c.entries.find? (fun e => e.key == key) with
    | none => rw [hf] at h; exact absurd h (by simp)
    | some e0 => rw [hf] at h; exact ⟨e0, rfl, by simpa using h⟩
  obtain ⟨k0, v0⟩ := e0
  simp only at hval
  subst hval
  obtain ⟨hfail, hok⟩ := setStringEntries_found_text key v t mx c.entries k0 hfind
  constructor
  · constructor
    · intro hsucc
      by_contra hgt
      have := hfail (Nat.not_le.mp hgt)
      simp [Config.set_string, this] at hsucc
    · intro hle
      obtain ⟨es, hes⟩ := hok hle
      simp [Config.set_string, hes]
  · intro hgt
    simp [Config.set_string, hfail hgt]

/-- Witness for C3 (amended): a two-byte ASCII value is accepted at cap 2. -/
theorem c3_set_string_cap_witness :
    (Config.set_string ⟨"f", [⟨"k", .Text "x" (some 2)⟩]⟩ "k" "ab").2 = some true :=
  (c3_set_string_cap ⟨"f", [⟨"k", .Text "x" (some 2)⟩]⟩ "k" "ab" "x" 2 rfl).1.mpr
    (by decide)

/-! ### `set_option` (C4) -/

theorem setOptionEntries_not_found (key : String) (idx : Nat) (l : List Entry)
    (h : l.find? (fun e => e.key == key) = none) :
    setOptionEntries key idx l = none := by
  induction l with
  | nil => rfl
  | cons e rest ih =>
    by_cases hk : e.key = key
    · rw [List.find?_cons_of_pos _ (by simp [hk])] at h
      exact absurd h (by simp)
    · rw [List.find?_cons_of_neg _ (by simp [hk])] at h
      simp [setOptionEntries, hk, ih h]

theorem setOptionEntries_mismatch (key : String) (idx : Nat) (l : List Entry)
    (e0 : Entry) (h : l.find? (fun e => e.key == key) = some e0)
    (hkind : e0.value.optionsSel = none) :
    setOptionEntries key idx l = none := by
  induction l with
  | nil => simp [List.find?] at h
  | cons e rest ih =>
    by_cases hk : e.key = key
    · rw [List.find?_cons_of_pos _ (by simp [hk])] at h
      rw [Option.some_inj] at h
      subst h
      cases hv : e.value <;>
        simp_all [setOptionEntries, Value.optionsSel, hk]
    · rw [List.find?_cons_of_neg _ (by simp [hk])] at h
      simp [setOptionEntries, hk, ih h]

theorem setOptionEntries_found_choice (key : String) (idx : Nat) (l : List Entry)
    (k0 : String) (opts : List String) (sel : Nat)
    (h : l.find? (fun e => e.key == key) = some ⟨k0, .Choice opts sel⟩) :
    (opts.length ≤ idx → setOptionEntries key idx l = none) ∧
    (idx < opts.length → ∃ es, setOptionEntries key idx l = some es ∧
      es.find? (fun e => e.key == key) = some ⟨k0, .Choice opts idx⟩) := by
  induction l with
  | nil => simp [List.find?] at h
  | cons e rest ih =>
    by_cases hk : e.key = key
    · rw [List.find?_cons_of_pos _ (by simp [hk])] at h
      rw [Option.some_inj] at h
      subst h
      have hk2 : k0 = key := hk
      subst hk2
      constructor
      · intro hge
        simp [setOptionEntries, hge]
      · intro hlt
        refine ⟨⟨k0, .Choice opts idx⟩ :: rest, ?_, ?_⟩
        · simp [setOptionEntries, Nat.not_le.mpr hlt]
        · exact List.find?_cons_of_pos _ (by simp)
    · rw [List.find?_cons_of_neg _ (by simp [hk])] at h
      obtain ⟨ih1, ih2⟩ := ih h
      constructor
      · intro hge
        simp [setOptionEntries, hk, ih1 hge]
      · intro hlt
        obtain ⟨es, hes, hfind⟩ := ih2 hlt
        refine ⟨e :: es, by simp [setOptionEntries, hk, hes], ?_⟩
        rw [List.find?_cons_of_neg _ (by simp [hk])]
        exact hfind

theorem setOptionEntries_found_color (key : String) (idx : Nat) (l : List Entry)
    (k0 : String) (opts : List String) (sel : Nat)
    (h : l.find? (fun e => e.key == key) = some ⟨k0, .Color opts sel⟩) :
    (opts.length ≤ idx → setOptionEntries key idx l = none) ∧
    (idx < opts.length → ∃ es, setOptionEntries key idx l = some es ∧
      es.find? (fun e => e.key == key) = some ⟨k0, .Color opts idx⟩) := by
  induction l with
  | nil => simp [List.find?] at h
  | cons e rest ih =>
    by_cases hk : e.key = key
    · rw [List.find?_cons_of_pos _ (by simp [hk])] at h
      rw [Option.some_inj] at h
      subst h
      have hk2 : k0 = key := hk
      subst hk2
      constructor
      · intro hge
        simp [setOptionEntries, hge]
      · intro hlt
        refine ⟨⟨k0, .Color opts idx⟩ :: rest, ?_, ?_⟩
        · simp [setOptionEntries, Nat.not_le.mpr hlt]
        · exact List.find?_cons_of_pos _ (by simp)
    · rw [List.find?_cons_of_neg _ (by simp [hk])] at h
      obtain ⟨ih1, ih2⟩ := ih h
      constructor
      · intro hge
        simp [setOptionEntries, hk, ih1 hge]
      · intro hlt
        obtain ⟨es, hes, hfind⟩ := ih2 hlt
        refine ⟨e :: es, by simp [setOptionEntries, hk, hes], ?_⟩
        rw [List.find?_cons_of_neg _ (by simp [hk])]
        exact hfind

theorem lookupValue_elim {c : Config} {key : String} {val : Value}
    (h : c.lookupValue key = some val) :
    ∃ k0, c.entries.find? (fun e => e.key == key) = some ⟨k0, val⟩ := by
  unfold Config.lookupValue at h
  cases hf : c.entries.find? (fun e => e.key == key) with
  | none => rw [hf] at h; exact absurd h (by simp)
  | some e0 =>
    rw [hf] at h
    obtain ⟨k0, v0⟩ := e0
    simp only [Option.map_some'] at h
    rw [Option.some_inj] at h
    subst h
    exact ⟨k0, rfl⟩

/-- C4: `set_option(key, idx)` returns failure and leaves the whole store
state (in particular `selected`) unchanged when `idx < 0`, when
`idx ≥ len(options)`, when the entry kind is neither Choice nor Color, or
when the key is not found; on success it sets `selected` to `idx`,
persists, and returns the new index. -/
theorem c4_setOption_bounds (c : Config) (key : String) (v : Int) :
    (v < 0 → c.setOption key v = (c, none))
    ∧ (c.lookupValue key = none → c.setOption key v = (c, none))
    ∧ (∀ val, c.lookupValue key = some val → val.optionsSel = none →
        c.setOption key v = (c, none))
    ∧ (∀ opts sel, c.lookupValue key = some (.Choice opts sel) →
        opts.length ≤ v.toNat → c.setOption key v = (c, none))
    ∧ (∀ opts sel, c.lookupValue key = some (.Color opts sel) →
        opts.length ≤ v.toNat → c.setOption key v = (c, none))
    ∧ (∀ opts sel, 0 ≤ v → v.toNat < opts.length →
        c.lookupValue key = some (.Choice opts sel) →
        (c.setOption key v).2 = some v ∧ (c.setOption key v).1.get_option key = v.toNat)
    ∧ (∀ opts sel, 0 ≤ v → v.toNat < opts.length →
        c.lookupValue key = some (.Color opts sel) →
        (c.setOption key v).2 = some v ∧ (c.setOption key v).1.get_option key = v.toNat) := by
  refine ⟨?_, ?_, ?_, ?_, ?_, ?_, ?_⟩
  · intro hneg
    simp [Config.setOption, hneg]
  · intro hmiss
    have : c.entries.find? (fun e => e.key == key) = none := by
      unfold Config.lookupValue at hmiss
      cases hf : c.entries.find? (fun e => e.key == key) with
      | none => rfl
      | some e0 => rw [hf] at hmiss; exact absurd hmiss (by simp)
    by_cases hneg : v < 0
    · simp [Config.setOption, hneg]
    · simp [Config.setOption, hneg, setOptionEntries_not_found key v.toNat c.entries this]
  · intro val hval hkind
    obtain ⟨k0, hfind⟩ := lookupValue_elim hval
    by_cases hneg : v < 0
    · simp [Config.setOption, hneg]
    · simp [Config.setOption, hneg,
        setOptionEntries_mismatch key v.toNat c.entries ⟨k0, val⟩ hfind hkind]
  · intro opts sel hval hge
    obtain ⟨k0, hfind⟩ := lookupValue_elim hval
    by_cases hneg : v < 0
    · simp [Config.setOption, hneg]
    · have := (setOptionEntries_found_choice key v.toNat c.entries k0 opts sel hfind).1 hge
      simp [Config.setOption, hneg, this]
  · intro opts sel hval hge
    obtain ⟨k0, hfind⟩ := lookupValue_elim hval
    by_cases hneg : v < 0
    · simp [Config.setOption, hneg]
    · have := (setOptionEntries_found_color key v.toNat c.entries k0 opts sel hfind).1 hge
      simp [Config.setOption, hneg, this]
  · intro opts sel hpos hlt hval
    obtain ⟨k0, hfind⟩ := lookupValue_elim hval
    obtain ⟨es, hes, hfind2⟩ :=
      (setOptionEntries_found_choice key v.toNat c.entries k0 opts sel hfind).2 hlt
    have hneg : ¬ v < 0 := Int.not_lt.mpr hpos
    constructor
    · simp [Config.setOption, hneg, hes]
    · simp [Config.setOption, hneg, hes, Config.get_option, hfind2]
  · intro opts sel hpos hlt hval
    obtain ⟨k0, hfind⟩ := lookupValue_elim hval
    obtain ⟨es, hes, hfind2⟩ :=
      (setOptionEntries_found_color key v.toNat c.entries k0 opts sel hfind).2 hlt
    have hneg : ¬ v < 0 := Int.not_lt.mpr hpos
    constructor
    · simp [Config.setOption, hneg, hes]
    · simp [Config.setOption, hneg, hes, Config.get_option, hfind2]

/-- Witness for C4: on a concrete choice entry, index 2 out of range is
rejected with the state unchanged, and index 1 is accepted. -/
theorem c4_setOption_bounds_witness :
    Config.setOption ⟨"f", [⟨"k", .Choice ["a", "b"] 0⟩]⟩ "k" 2 =
      (⟨"f", [⟨"k", .Choice ["a", "b"] 0⟩]⟩, none) ∧
    (Config.setOption ⟨"f", [⟨"k", .Choice ["a", "b"] 0⟩]⟩ "k" 1).2 = some 1 :=
  ⟨((c4_setOption_bounds ⟨"f", [⟨"k", .Choice ["a", "b"] 0⟩]⟩ "k" 2).2.2.2.1
      ["a", "b"] 0 rfl (by decide)),
   ((c4_setOption_bounds ⟨"f", [⟨"k", .Choice ["a", "b"] 0⟩]⟩ "k" 1).2.2.2.2.2.1
      ["a", "b"] 0 (by decide) (by decide) rfl).1⟩

/-! ### Navigation (C5) -/

theorem getD_mem (l : List Entry) (e : Entry) (he : e ∈ l) :
    ∃ j, j < l.length ∧ l.getD j dummyEntry = e := by
  induction l with
  | nil => simp at he
  | cons a rest ih =>
    rcases List.mem_cons.mp he with rfl | hmem
    · exact ⟨0, by simp, by simp⟩
    · obtain ⟨j, hj, heq⟩ := ih hmem
      exact ⟨j + 1, by simpa using hj, by simpa [List.getD_cons_succ] using heq⟩

theorem firstNonCat_spec (l : List Entry) :
    (firstNonCat l = none ∧
      ∀ j < l.length, (l.getD j dummyEntry).value.isCategory = true)
    ∨ (∃ i, firstNonCat l = some i ∧ i < l.length ∧
        (l.getD i dummyEntry).value.isCategory = false ∧
        ∀ j < i, (l.getD j dummyEntry).value.isCategory = true) := by
  induction l with
  | nil => exact Or.inl ⟨rfl, by intro j hj; simp at hj⟩
  | cons e rest ih =>
    by_cases hc : e.value.isCategory
    · rcases ih with ⟨h1, h2⟩ | ⟨i, h1, h2, h3, h4⟩
      · refine Or.inl ⟨by simp [firstNonCat, hc, h1], ?_⟩
        intro j hj
        cases j with
        | zero => simpa using hc
        | succ j' =>
          rw [List.getD_cons_succ]
          exact h2 j' (by simpa using hj)
      · refine Or.inr ⟨i + 1, by simp [firstNonCat, hc, h1], by simpa using h2,
          by simpa [List.getD_cons_succ] using h3, ?_⟩
        intro j hj
        cases j with
        | zero => simpa using hc
        | succ j' =>
          rw [List.getD_cons_succ]
          exact h4 j' (by omega)
    · refine Or.inr ⟨0, by simp [firstNonCat, hc], by simp, by simpa using hc, ?_⟩
      intro j hj
      omega

theorem scanUp_spec (l : List Entry) (n : Nat) :
    (scanUp l n = none → ∀ j < n, (l.getD j dummyEntry).value.isCategory = true)
    ∧ (∀ k, scanUp l n = some k → k < n ∧
        (l.getD k dummyEntry).value.isCategory = false ∧
        ∀ j, k < j → j < n → (l.getD j dummyEntry).value.isCategory = true) := by
  induction n with
  | zero =>
    refine ⟨by intro _ j hj; omega, ?_⟩
    intro k hk
    simp [scanUp] at hk
  | succ m ih =>
    constructor
    · intro h j hj
      unfold scanUp at h
      split at h
      · rcases Nat.lt_succ_iff_lt_or_eq.mp hj with hlt | heq
        · exact ih.1 h j hlt
        · subst heq; assumption
      · exact absurd h (by simp)
    · intro k hk
      unfold scanUp at hk
      split at hk
      · obtain ⟨h1, h2, h3⟩ := ih.2 k hk
        refine ⟨by omega, h2, ?_⟩
        intro j hj1 hj2
        rcases Nat.lt_succ_iff_lt_or_eq.mp hj2 with hlt | heq
        · exact h3 j hj1 hlt
        · subst heq; assumption
      · rw [Option.some_inj] at hk
        subst hk
        refine ⟨Nat.lt_succ_self _, by simp_all, ?_⟩
        intro j hj1 hj2
        omega

theorem scanDown_spec (l : List Entry) (k : Nat) :
    (scanDown l k = none → ∀ j, k < j → j < l.length →
      (l.getD j dummyEntry).value.isCategory = true)
    ∧ (∀ m, scanDown l k = some m → k < m ∧ m < l.length ∧
        (l.getD m dummyEntry).value.isCategory = false ∧
        ∀ j, k < j → j < m → (l.getD j dummyEntry).value.isCategory = true) := by
  have H : ∀ fuel k, l.length - k ≤ fuel →
      ((scanDown l k = none → ∀ j, k < j → j < l.length →
        (l.getD j dummyEntry).value.isCategory = true)
      ∧ (∀ m, scanDown l k = some m → k < m ∧ m < l.length ∧
          (l.getD m dummyEntry).value.isCategory = false ∧
          ∀ j, k < j → j < m → (l.getD j dummyEntry).value.isCategory = true)) := by
    intro fuel
    induction fuel with
    | zero =>
      intro k hk
      have hlen : l.length ≤ k := by omega
      constructor
      · intro _ j hj1 hj2
        omega
      · intro m hm
        unfold scanDown at hm
        rw [dif_neg (by omega)] at hm
        exact absurd hm (by simp)
    | succ f ihf =>
      intro k hk
      constructor
      · intro h j hj1 hj2
        unfold scanDown at h
        split at h
        · split at h
          · rcases Nat.lt_or_ge (k + 1) j with hgt | hle
            · exact (ihf (k + 1) (by omega)).1 h j hgt hj2
            · have : j = k + 1 := by omega
              subst this
              assumption
          · exact absurd h (by simp)
        · omega
      · intro m hm
        unfold scanDown at hm
        split at hm
        · split at hm
          · obtain ⟨h1, h2, h3, h4⟩ := (ihf (k + 1) (by omega)).2 m hm
            refine ⟨by omega, h2, h3, ?_⟩
            intro j hj1 hj2
            rcases Nat.lt_or_ge (k + 1) j with hgt | hle
            · exact h4 j hgt hj2
            · have : j = k + 1 := by omega
              subst this
              assumption
          · rw [Option.some_inj] at hm
            subst hm
            refine ⟨Nat.lt_succ_self _, by assumption, by simp_all, ?_⟩
            intro j hj1 hj2
            omega
        · exact absurd hm (by simp)
  exact H (l.length - k) k (Nat.le_refl _)

/-- C5: with at least one non-Category entry the browsing selection never
rests on a Category entry — the initial selection is the first
non-Category entry (everything before it is a Category), and from a
non-Category selection KEY_UP / KEY_DOWN land on the nearest non-Category
entry in their direction: they stay put (no wraparound) exactly when only
Category entries remain toward that boundary, and whenever a non-Category
entry exists on that side the move strictly advances past the Category
block, every such entry bounding the landing point (which pins the result
to the first non-Category entry found by the scan). -/
theorem c5_navigation_skips_categories (entries : List Entry) (sel : Nat) :
    ((∃ e ∈ entries, e.value.isCategory = false) →
      (entries.getD (initialSel entries) dummyEntry).value.isCategory = false
      ∧ ∀ j < initialSel entries, (entries.getD j dummyEntry).value.isCategory = true)
    ∧ (sel < entries.length →
        (entries.getD sel dummyEntry).value.isCategory = false →
        ((entries.getD (moveUp entries sel) dummyEntry).value.isCategory = false
        ∧ (entries.getD (moveDown entries sel) dummyEntry).value.isCategory = false
        ∧ moveDown entries sel < entries.length
        ∧ ((∀ j < sel, (entries.getD j dummyEntry).value.isCategory = true) →
            moveUp entries sel = sel)
        ∧ ((∀ j, sel < j → j < entries.length →
              (entries.getD j dummyEntry).value.isCategory = true) →
            moveDown entries sel = sel)
        ∧ (moveUp entries sel = sel ∨ (moveUp entries sel < sel ∧
            ∀ j, moveUp entries sel < j → j < sel →
              (entries.getD j dummyEntry).value.isCategory = true))
        ∧ (moveDown entries sel = sel ∨ (sel < moveDown entries sel ∧
            ∀ j, sel < j → j < moveDown entries sel →
              (entries.getD j dummyEntry).value.isCategory = true))
        ∧ (∀ k, k < sel →
            (entries.getD k dummyEntry).value.isCategory = false →
            (k ≤ moveUp entries sel ∧ moveUp entries sel < sel))
        ∧ (∀ k, sel < k → k < entries.length →
            (entries.getD k dummyEntry).value.isCategory = false →
            (sel < moveDown entries sel ∧ moveDown entries sel ≤ k)))) := by
  constructor
  · intro ⟨e, hmem, hecat⟩
    rcases firstNonCat_spec entries with ⟨h1, h2⟩ | ⟨i, h1, h2, h3, h4⟩
    · obtain ⟨j, hj, hgd⟩ := getD_mem entries e hmem
      have := h2 j hj
      rw [hgd] at this
      rw [this] at hecat
      exact absurd hecat (by simp)
    · constructor
      · simpa [initialSel, h1] using h3
      · intro j hj
        rw [initialSel, h1] at hj
        exact h4 j hj
  · intro hlt hcat
    have hne : ¬ entries.isEmpty := by
      cases entries with
      | nil => simp at hlt
      | cons a l => simp
    refine ⟨?_, ?_, ?_, ?_, ?_, ?_, ?_, ?_, ?_⟩
    · rw [moveUp, if_neg hne]
      cases hs : scanUp entries sel with
      | none => simpa using hcat
      | some k => simpa using ((scanUp_spec entries sel).2 k hs).2.1
    · rw [moveDown, if_neg hne]
      cases hs : scanDown entries sel with
      | none => simpa using hcat
      | some m => simpa using ((scanDown_spec entries sel).2 m hs).2.2.1
    · rw [moveDown, if_neg hne]
      cases hs : scanDown entries sel with
      | none => simpa using hlt
      | some m => simpa using ((scanDown_spec entries sel).2 m hs).2.1
    · intro hall
      rw [moveUp, if_neg hne]
      cases hs : scanUp entries sel with
      | none => rfl
      | some k =>
        obtain ⟨h1, h2, _⟩ := (scanUp_spec entries sel).2 k hs
        have := hall k h1
        rw [this] at h2
        exact absurd h2 (by simp)
    · intro hall
      rw [moveDown, if_neg hne]
      cases hs : scanDown entries sel with
      | none => rfl
      | some m =>
        obtain ⟨h1, h2, h3, _⟩ := (scanDown_spec entries sel).2 m hs
        have := hall m h1 h2
        rw [this] at h3
        exact absurd h3 (by simp)
    · rw [moveUp, if_neg hne]
      cases hs : scanUp entries sel with
      | none => exact Or.inl rfl
      | some k =>
        obtain ⟨h1, _, h3⟩ := (scanUp_spec entries sel).2 k hs
        exact Or.inr ⟨by simpa using h1, by simpa using h3⟩
    · rw [moveDown, if_neg hne]
      cases hs : scanDown entries sel with
      | none => exact Or.inl rfl
      | some m =>
        obtain ⟨h1, _, _, h4⟩ := (scanDown_spec entries sel).2 m hs
        exact Or.inr ⟨by simpa using h1, by simpa using h4⟩
    · intro k hk hkcat
      rw [moveUp, if_neg hne]
      cases hs : scanUp entries sel with
      | none =>
        have := (scanUp_spec entries sel).1 hs k hk
        rw [this] at hkcat
        exact absurd hkcat (by simp)
      | some m =>
        obtain ⟨h1, _, h3⟩ := (scanUp_spec entries sel).2 m hs
        simp only [Option.getD_some]
        refine ⟨?_, h1⟩
        by_contra hgt
        push_neg at hgt
        have := h3 k hgt hk
        rw [this] at hkcat
        exact absurd hkcat (by simp)
    · intro k hk1 hk2 hkcat
      rw [moveDown, if_neg hne]
      cases hs : scanDown entries sel with
      | none =>
        have := (scanDown_spec entries sel).1 hs k hk1 hk2
        rw [this] at hkcat
        exact absurd hkcat (by simp)
      | some m =>
        obtain ⟨h1, _, _, h4⟩ := (scanDown_spec entries sel).2 m hs
        simp only [Option.getD_some]
        refine ⟨h1, ?_⟩
        by_contra hgt
        push_neg at hgt
        have := h4 k hk1 hgt
        rw [this] at hkcat
        exact absurd hkcat (by simp)

/-- Witness for C5 at the concrete list [Category, Choice]: KEY_DOWN from
the final non-Category entry is a no-op. -/
theorem c5_navigation_skips_categories_witness :
    moveDown [⟨"A", .Category⟩, ⟨"x", .Choice ["a", "b", "c"] 0⟩] 1 = 1 :=
  (c5_navigation_skips_categories
      [⟨"A", .Category⟩, ⟨"x", .Choice ["a", "b", "c"] 0⟩] 1).2
    (by decide) (by decide) |>.2.2.2.2.1
    (by intro j h1 h2; simp at h2; omega)

/-! ### Cycling of choice/color options (C6) -/

theorem cycleFwd_iterate_choice (opts : List String) (k sel : Nat)
    (h : sel < opts.length) :
    Value.cycleFwd^[k] (.Choice opts sel) = .Choice opts ((sel + k) % opts.length) := by
  induction k generalizing sel with
  | zero => simp [Nat.mod_eq_of_lt h]
  | succ m ih =>
    have hlen : 0 < opts.length := by omega
    have hne : ¬ opts.isEmpty := by
      cases opts with
      | nil => simp at h
      | cons a l => simp
    rw [Function.iterate_succ_apply]
    rw [show Value.cycleFwd (.Choice opts sel) = .Choice opts ((sel + 1) % opts.length)
      from by simp [Value.cycleFwd, hne]]
    rw [ih ((sel + 1) % opts.length) (Nat.mod_lt _ hlen)]
    congr 1
    rw [Nat.mod_add_mod]
    congr 1
    omega

theorem cycleFwd_iterate_color (opts : List String) (k sel : Nat)
    (h : sel < opts.length) :
    Value.cycleFwd^[k] (.Color opts sel) = .Color opts ((sel + k) % opts.length) := by
  induction k generalizing sel with
  | zero => simp [Nat.mod_eq_of_lt h]
  | succ m ih =>
    have hlen : 0 < opts.length := by omega
    have hne : ¬ opts.isEmpty := by
      cases opts with
      | nil => simp at h
      | cons a l => simp
    rw [Function.iterate_succ_apply]
    rw [show Value.cycleFwd (.Color opts sel) = .Color opts ((sel + 1) % opts.length)
      from by simp [Value.cycleFwd, hne]]
    rw [ih ((sel + 1) % opts.length) (Nat.mod_lt _ hlen)]
    congr 1
    rw [Nat.mod_add_mod]
    congr 1
    omega

/-- C6: for a Choice or Color value whose selection is in range, one
forward cycle (Enter/Space/Right) moves `selected` to
`(selected + 1) % len(options)` — so `len(options)` consecutive forward
cycles return to the original selection — KEY_LEFT wraps selection 0 to
`len - 1` and otherwise decrements, and both directions are no-ops on an
empty option list. -/
theorem c6_cycle_forward_period (opts : List String) (sel : Nat)
    (h : sel < opts.length) :
    Value.cycleFwd (.Choice opts sel) = .Choice opts ((sel + 1) % opts.length)
    ∧ Value.cycleFwd (.Color opts sel) = .Color opts ((sel + 1) % opts.length)
    ∧ Value.cycleFwd^[opts.length] (.Choice opts sel) = .Choice opts sel
    ∧ Value.cycleFwd^[opts.length] (.Color opts sel) = .Color opts sel
    ∧ (sel = 0 → Value.cycleBack (.Choice opts sel) = .Choice opts (opts.length - 1)
        ∧ Value.cycleBack (.Color opts sel) = .Color opts (opts.length - 1))
    ∧ (0 < sel → Value.cycleBack (.Choice opts sel) = .Choice opts (sel - 1)
        ∧ Value.cycleBack (.Color opts sel) = .Color opts (sel - 1))
    ∧ (∀ s, Value.cycleFwd (.Choice [] s) = .Choice [] s
        ∧ Value.cycleBack (.Choice [] s) = .Choice [] s
        ∧ Value.cycleFwd (.Color [] s) = .Color [] s
        ∧ Value.cycleBack (.Color [] s) = .Color [] s) := by
  have hne : ¬ opts.isEmpty := by
    cases opts with
    | nil => simp at h
    | cons a l => simp
  refine ⟨by simp [Value.cycleFwd, hne], by simp [Value.cycleFwd, hne], ?_, ?_, ?_, ?_, ?_⟩
  · rw [cycleFwd_iterate_choice opts opts.length sel h]
    rw [Nat.add_mod_right, Nat.mod_eq_of_lt h]
  · rw [cycleFwd_iterate_color opts opts.length sel h]
    rw [Nat.add_mod_right, Nat.mod_eq_of_lt h]
  · intro h0
    subst h0
    exact ⟨by simp [Value.cycleBack, hne], by simp [Value.cycleBack, hne]⟩
  · intro h0
    have : ¬ sel = 0 := by omega
    exact ⟨by simp [Value.cycleBack, hne, this], by simp [Value.cycleBack, hne, this]⟩
  · intro s
    exact ⟨rfl, rfl, rfl, rfl⟩

/-- Witness for C6: three forward cycles on a three-option choice return
to the original selection. -/
theorem c6_cycle_forward_period_witness :
    Value.cycleFwd^[3] (.Choice ["a", "b", "c"] 0) = .Choice ["a", "b", "c"] 0 :=
  (c6_cycle_forward_period ["a", "b", "c"] 0 (by decide)).2.2.1

/-! ### Autosave behaviour of the editor session (C7) -/

/-- C7 counterexample: with autosave enabled, KEY_RIGHT (code 261) on a
choice entry successfully mutates `selected` from 0 to 1 yet the step
performs no save — only the Enter/Space branch of the source contains the
`SAVE_WHEN_CHANGE` persist. -/
theorem c7_right_does_not_persist_cx :
    browseStep true 261 [] ⟨⟨"f", [⟨"k", .Choice ["a", "b"] 0⟩]⟩, 0⟩ =
      (⟨⟨"f", [⟨"k", .Choice ["a", "b"] 1⟩]⟩, 0⟩, false, false) := by
  decide

/-- C7 (amended): with autosave enabled, every mutation performed through
the Enter/Space branch (cycling, toggling, or a modal edit opened by
Enter) triggers an immediate persist — that branch persists even when no
mutation occurred, except for the empty-option-list no-op, which skips
the save; mutations performed through KEY_LEFT / KEY_RIGHT or through the
`e` edit command never trigger a persist, and the explicit `s` command
always does. -/
theorem c7_autosave_only_enter_branch (a : Bool) (scr : List Int) (st : SessionState) :
    ((browseStep a 32 scr st).2.1 = (a && !enterSkipsSave st))
    ∧ ((browseStep a 10 scr st).2.1 = (a && !enterSkipsSave st))
    ∧ ((browseStep a 13 scr st).2.1 = (a && !enterSkipsSave st))
    ∧ ((browseStep a 101 scr st).2.1 = false)
    ∧ ((browseStep a 260 scr st).2.1 = false)
    ∧ ((browseStep a 261 scr st).2.1 = false)
    ∧ ((browseStep a 115 scr st).2.1 = true) := by
  refine ⟨?_, ?_, ?_, ?_, ?_, ?_, ?_⟩ <;>
    · simp only [browseStep]
      try norm_num
      all_goals
        cases hE : st.cfg.entries[st.selected]? with
        | none => simp [enterSkipsSave, hE]
        | some e =>
          obtain ⟨k, v⟩ := e
          cases v
          case Choice opts s => cases opts <;> simp [enterSkipsSave, hE]
          case Color opts s => cases opts <;> simp [enterSkipsSave, hE]
          all_goals simp [enterSkipsSave, hE]

/-! ### `set_int` / `set_bool` (C8)

`set_bool` (and `set_option`, `set_string`) return an `Option` that is
`None` on key-not-found or kind mismatch, but the source's `set_int` has
return type `()` and ends with `};` — the `Some/None` its body computes
is discarded, although its own doc comment promises `Some(new_value)` /
`None`.  A kind mismatch is therefore a silent no-op for `set_int`. -/

/-- C8 evaluation at the failing input: `set_int` on the Boolean entry
`"continuous minutes"` (kind mismatch) leaves the default configuration
unchanged but — having return type `()` — cannot report the failure,
while `set_bool` on the Integer entry `"clock width"` both leaves the
state unchanged and returns `None`. -/
theorem c8_set_int_silent_eval :
    (Config.mkDefault "f").set_int "continuous minutes" 3 = Config.mkDefault "f"
    ∧ (Config.mkDefault "f").set_bool "clock width" true = (Config.mkDefault "f", none) :=
  ⟨rfl, rfl⟩

/-! ### The modal integer editor (C9) -/

theorem utf8LenL_append (xs ys : List Char) :
    utf8LenL (xs ++ ys) = utf8LenL xs + utf8LenL ys := by
  simp [utf8LenL]

theorem utf8LenL_dropLast_le (cs : List Char) : utf8LenL cs.dropLast ≤ utf8LenL cs := by
  by_cases hne : cs = []
  · subst hne; simp
  · conv_rhs => rw [← List.dropLast_append_getLast hne]
    rw [utf8LenL_append]
    omega

theorem digit_utf8Size (c : Char) (h : c.isDigit = true) : c.utf8Size = 1 := by
  simp [Char.isDigit] at h
  unfold Char.utf8Size
  rw [if_pos]
  exact UInt32.le_trans h.2 (by decide)

theorem intBufShape_append (xs ys : List Char) (h : intBufShape (xs ++ ys) = true) :
    intBufShape xs = true := by
  cases xs with
  | nil => rfl
  | cons c rest =>
    simp [intBufShape, List.all_append] at h ⊢
    exact ⟨h.1, h.2.1⟩

theorem intBufShape_dropLast (cs : List Char) (h : intBufShape cs = true) :
    intBufShape cs.dropLast = true := by
  by_cases hne : cs = []
  · subst hne; rfl
  · exact intBufShape_append _ _ (by rw [List.dropLast_append_getLast hne]; exact h)

theorem utf8LenL_of_ascii (cs : List Char) (h : ∀ c ∈ cs, c.utf8Size = 1) :
    utf8LenL cs = cs.length := by
  induction cs with
  | nil => rfl
  | cons c rest ih =>
    have hc := h c (by simp)
    have hr := ih (fun x hx => h x (by simp [hx]))
    simp [utf8LenL] at hr ⊢
    omega

theorem intBufShape_ascii (cs : List Char) (h : intBufShape cs = true) :
    ∀ c ∈ cs, c.utf8Size = 1 := by
  cases cs with
  | nil => simp
  | cons c rest =>
    simp [intBufShape] at h
    intro x hx
    rcases List.mem_cons.mp hx with rfl | hmem
    · rcases h.1 with hminus | hdigit
      · subst hminus; decide
      · exact digit_utf8Size _ hdigit
    · exact digit_utf8Size _ (h.2 x hmem)

/-- C9: in the modal integer editor only ASCII digits and a single
leading minus sign are accepted into the buffer (a well-shaped buffer
stays well-shaped under any keystroke), the buffer is capped at 32
characters (for well-shaped buffers the byte cap of the source equals the
character count), confirming an empty buffer or a lone minus commits 0,
confirming an unparseable buffer keeps the previous value, confirming any
other buffer commits its parse as a signed integer, and cancel keeps the
prior value. -/
theorem c9_integer_editor (input : List Char) (ch : Int) (rest : List Int) (v : Int) :
    (intBufShape input = true → intBufShape (intEditStep input ch) = true)
    ∧ utf8LenL (intEditStep input ch) ≤ max (utf8LenL input) 32
    ∧ (intBufShape input = true → utf8LenL input = input.length)
    ∧ editIntRun (10 :: rest) [] v = 0
    ∧ editIntRun (10 :: rest) ['-'] v = 0
    ∧ (parseI64 input = none → ¬ input = [] → ¬ input = ['-'] →
        editIntRun (10 :: rest) input v = v)
    ∧ (∀ n, parseI64 input = some n → ¬ input = [] → ¬ input = ['-'] →
        editIntRun (10 :: rest) input v = n)
    ∧ editIntRun (27 :: rest) input v = v := by
  refine ⟨?_, ?_, ?_, ?_, ?_, ?_, ?_, ?_⟩
  · intro h
    unfold intEditStep
    split
    · exact intBufShape_dropLast _ h
    · cases hc : charFromU32 ch with
      | none => exact h
      | some c =>
        simp only
        split
        · exact h
        · split
          · case _ hcond =>
            cases input with
            | nil =>
              rcases hcond with hdigit | ⟨hminus, _⟩
              · simp [intBufShape, hdigit]
              · subst hminus; decide
            | cons c0 cs0 =>
              have hdigit : c.isDigit = true := by
                rcases hcond with hdigit | ⟨_, habs⟩
                · exact hdigit
                · simp at habs
              simp [intBufShape, List.all_append] at h ⊢
              exact ⟨h.1, h.2, hdigit⟩
          · exact h
  · unfold intEditStep
    split
    · exact le_trans (utf8LenL_dropLast_le input) (le_max_left _ _)
    · cases hc : charFromU32 ch with
      | none => exact le_max_left _ _
      | some c =>
        simp only
        split
        · exact le_max_left _ _
        · split
          · rename_i hlen hcond
            have hsize : c.utf8Size = 1 := by
              rcases hcond with hdigit | ⟨hminus, _⟩
              · exact digit_utf8Size _ hdigit
              · subst hminus; decide
            rw [utf8LenL_append]
            have h1 : utf8LenL [c] = 1 := by simp [utf8LenL, hsize]
            rw [h1]
            rw [Nat.not_le] at hlen
            omega
          · exact le_max_left _ _
  · intro h
    exact utf8LenL_of_ascii input (intBufShape_ascii input h)
  · simp [editIntRun, intCommitVal]
  · simp [editIntRun, intCommitVal]
  · intro hparse hne hnm
    simp [editIntRun, intCommitVal, hparse, hne, hnm]
  · intro n hparse hne hnm
    simp [editIntRun, intCommitVal, hparse, hne, hnm]
  · simp [editIntRun]

/-- Witness for C9: confirming the buffer `"42"` commits 42. -/
theorem c9_integer_editor_witness : editIntRun [10] ['4', '2'] 7 = 42 :=
  (c9_integer_editor ['4', '2'] 0 [] 7).2.2.2.2.2.2.1 42 (by decide) (by decide)
    (by decide)

/-! ### Fatal paths: the tail-anchored display slice (C10) -/

theorem sliceFromByte_ascii (cs : List Char) (n : Nat) (h : ∀ c ∈ cs, c.utf8Size = 1)
    (hn : n ≤ cs.length) : sliceFromByte cs n = some (cs.drop n) := by
  induction cs generalizing n with
  | nil =>
    cases n with
    | zero => rfl
    | succ m => simp at hn
  | cons c rest ih =>
    cases n with
    | zero => rfl
    | succ m =>
      have hc : c.utf8Size = 1 := h c (by simp)
      unfold sliceFromByte
      rw [hc]
      rw [if_pos (by omega)]
      have : m + 1 - 1 = m := by omega
      rw [this]
      rw [ih m (fun x hx => h x (by simp [hx])) (by simpa using hn)]
      rfl

theorem browseStep_quit_ne (a : Bool) (ch : Int) (scr : List Int) (st : SessionState)
    (hne : ch ≠ 27) : (browseStep a ch scr st).2.2 = false := by
  simp only [browseStep]
  split_ifs <;>
    first
      | rfl
      | (exact absurd (by assumption) hne)
      | (cases hE : st.cfg.entries[st.selected]? with
         | none => rfl
         | some e =>
           obtain ⟨k, v⟩ := e
           cases v <;> dsimp only <;> first
             | rfl
             | (split_ifs <;> rfl))

/-- C10 counterexample: the tail-anchored display slice of the modal text
editor is a Rust byte slice `&input[start..]`; on the inherited two-
character buffer `"éé"` (four UTF-8 bytes) with one visible column the
start index 3 falls inside a character, which is a panic — a fatal error
path inside the editor. -/
theorem c10_tail_slice_fatal_cx : tailVisible ['é', 'é'] 1 = none := by decide

/-- C10 (amended): the tail-anchored display slice is well-defined — and
shows exactly the most recent characters — whenever the buffer contains
only single-byte characters, which covers everything the editor itself
can insert (printable ASCII); it can only fail on an inherited multi-byte
value wider than the terminal.  The browsing loop terminates exactly on
the explicit quit key (code 27). -/
theorem c10_no_fatal_path_ascii :
    (∀ (cs : List Char) (maxLen : Nat), (∀ c ∈ cs, c.utf8Size = 1) →
      tailVisible cs maxLen = some (cs.drop (cs.length - maxLen)))
    ∧ (∀ (a : Bool) (ch : Int) (scr : List Int) (st : SessionState),
        (browseStep a ch scr st).2.2 = true ↔ ch = 27) := by
  constructor
  · intro cs maxLen h
    have hlen : utf8LenL cs = cs.length := utf8LenL_of_ascii cs h
    unfold tailVisible
    rw [hlen]
    split
    · exact sliceFromByte_ascii cs (cs.length - maxLen) h (by omega)
    · have : cs.length - maxLen = 0 := by omega
      rw [this, List.drop_zero]
  · intro a ch scr st
    constructor
    · intro hq
      by_contra hne
      rw [browseStep_quit_ne a ch scr st hne] at hq
      exact absurd hq (by simp)
    · intro h27
      subst h27
      norm_num [browseStep]

/-- Witness for C10 (amended) on an ASCII buffer wider than the visible
width: the displayed slice is the tail. -/
theorem c10_no_fatal_path_ascii_witness :
    tailVisible ['a', 'b', 'c'] 2 = some ['b', 'c'] :=
  (c10_no_fatal_path_ascii.1 ['a', 'b', 'c'] 2 (by decide)).trans (by decide)

end ConfigEdit
